import Mathlib

/-
Formal model of `manual-nas-tool.py` (Manual NAS Backup Tool).

The script is an interactive orchestrator around two external tools.  Its
pure logic — string normalization, prompt validation, destination ordering,
the per-destination execution loop and the per-strategy control flow — is
embedded below as executable Lean functions over `List Char` (Python `str`
is modelled as a list of characters).  Interactive reads are modelled by
passing the entered line(s) as arguments; subprocess calls are modelled by
an `Except`/record parameter carrying the call's outcome; `random.choice`
is modelled by an arbitrary index-picking function.
-/

namespace ManualNas

/-- Python strings are modelled as lists of characters. -/
abbrev PyStr := List Char

/-- Characters removed by Python `str.strip()` and matched by `\s` in
`re`, restricted to the ASCII range: space, tab, LF, VT, FF, CR and the
separator control characters 28-31. -/
def isPySpace (c : Char) : Bool :=
  c == ' ' || c == '\t' || c == '\n' || c == '\r' ||
  c.toNat == 11 || c.toNat == 12 || (28 ≤ c.toNat && c.toNat ≤ 31)

/-- Python `str.strip()`: drop leading and trailing whitespace. -/
def pyStrip (s : PyStr) : PyStr :=
  ((s.dropWhile isPySpace).reverse.dropWhile isPySpace).reverse

/-- Python `str.lower()` on ASCII text: `Char.toLower` lowercases exactly
the ASCII uppercase letters, which matches Python on ASCII input. -/
def pyLower (s : PyStr) : PyStr := s.map Char.toLower

/-- Python `str.split(sep)` for a one-character separator: empty segments
are kept, and splitting the empty string yields one empty segment. -/
def pySplit (sep : Char) : PyStr → List PyStr
  | [] => [[]]
  | c :: rest =>
    match pySplit sep rest with
    | [] => [[]]
    | seg :: segs => if c == sep then [] :: seg :: segs else (c :: seg) :: segs

/-- Python's `k in line` substring test. -/
def containsSub (needle : PyStr) : PyStr → Bool
  | [] => needle.isEmpty
  | c :: rest => needle.isPrefixOf (c :: rest) || containsSub needle rest

/-- Python regex `\w` on ASCII text: `[A-Za-z0-9_]`. -/
def isWordChar (c : Char) : Bool := c.isAlphanum || c == '_'

/-- The characters collapsed by the final `re.sub(r'[\s_-]+', '_', ...)`
of `normalize_name`: whitespace, underscore and hyphen. -/
def isSepChar (c : Char) : Bool := isPySpace c || c == '_' || c == '-'

/-- Model of `unicodedata.normalize('NFKD', name).encode('ascii',
'ignore').decode('ascii')` (line 55): non-ASCII code points are dropped.
On ASCII input NFKD is the identity and the encode keeps every character,
so this agrees exactly with the source there; the NFKD decomposition
table for non-ASCII characters (which may first map them to ASCII, e.g.
`é` to `e`) is not modelled.  Statements whose truth depends on how a
non-ASCII character folds therefore carry an ASCII-only hypothesis,
confining them to the region where this model is exact. -/
def asciiFold (s : PyStr) : PyStr := s.filter (fun c => c.toNat < 128)

/-- The character class kept by `re.sub(r'[^\w\s-]', '', name)` (line 56):
word characters, whitespace and hyphens. -/
def keepChar (c : Char) : Bool := isWordChar c || isPySpace c || c == '-'

/-- `re.sub(r'[\s_-]+', '_', name)` (line 57): each maximal run of
separator characters becomes a single underscore. -/
def collapseSeps : PyStr → PyStr
  | [] => []
  | [c] => if isSepChar c then ['_'] else [c]
  | c :: d :: rest =>
    if isSepChar c then
      if isSepChar d then collapseSeps (d :: rest)
      else '_' :: collapseSeps (d :: rest)
    else c :: collapseSeps (d :: rest)

/-- `normalize_name` (lines 53-58): ASCII-fold, delete characters outside
`[\w\s-]`, strip, lowercase, then collapse separator runs to `_`. -/
def normalize_name (s : PyStr) : PyStr :=
  collapseSeps (pyLower (pyStrip ((asciiFold s).filter keepChar)))

/-- A string has no two adjacent separator characters (so every separator
run has already been collapsed). -/
def noAdjSeps : PyStr → Bool
  | [] => true
  | [_] => true
  | c :: d :: rest => !(isSepChar c && isSepChar d) && noAdjSeps (d :: rest)

/-- `run_cmd` (lines 60-69).  The subprocess layer is modelled by
`outcome`: `.ok (returncode, stdout)` for a completed call, `.error msg`
for a raised exception whose text is `msg`.  Returns
`(returncode == 0, stdout.strip())`, and on an exception the fixed pair
`(false, "Failed to execute command.")`. -/
def runCmd (outcome : Except PyStr (Int × PyStr)) : Bool × PyStr :=
  match outcome with
  | .ok (rc, out) => (rc == 0, pyStrip out)
  | .error _ => (false, "Failed to execute command.".toList)

/-- `run_cmd_with_progress` (lines 71-112), reduced to its caller-visible
result.  `linesRead` are the (already stripped) output lines collected
before the subprocess layer either finished with a return code (`.ok rc`)
or raised an exception (`.error msg`, whose `str(e)` text is appended to
the collected lines).  Returns `(success, output_lines)`. -/
def runCmdWithProgress (linesRead : List PyStr) (outcome : Except PyStr Int) :
    Bool × List PyStr :=
  match outcome with
  | .ok rc => (rc == 0, linesRead)
  | .error e => (false, linesRead ++ [e])

/-- Result of one call to `get_input`: either the process exits with
code 0 (via `cleanup`, line 126) or a value is returned. -/
inductive InputOutcome
  | exit0
  | value (v : PyStr)
  deriving DecidableEq

/-- `get_input` (lines 123-127): strip the line; on `q`/`quit`
(case-insensitive) exit the process with code 0; otherwise return the
stripped line, or the default when it is empty. -/
def get_input (line : PyStr) (dflt : PyStr) : InputOutcome :=
  let result := pyStrip line
  if pyLower result = "q".toList ∨ pyLower result = "quit".toList then .exit0
  else .value (if result = [] then dflt else result)

/-- One iteration of the `while True` loop of `confirm` (lines 116-121):
`some true` for `y`/`yes`, `some false` for `n`/`no`/empty, `none` when
the input matches neither list and the loop re-prompts. -/
def confirm_step (line : PyStr) : Option Bool :=
  let choice := pyLower (pyStrip line)
  if choice = "y".toList ∨ choice = "yes".toList then some true
  else if choice = "n".toList ∨ choice = "no".toList ∨ choice = [] then some false
  else none

/-- `confirm` (lines 116-121) on a list of successively entered lines:
the first recognized line decides; `none` means every supplied line was
rejected and the loop is still prompting. -/
def confirm : List PyStr → Option Bool
  | [] => none
  | line :: rest =>
    match confirm_step line with
    | some b => some b
    | none => confirm rest

/-- `string.ascii_letters + string.digits` (line 133). -/
def pwChars : PyStr :=
  "abcdefghijklmnopqrstuvwxyzABCDEFGHIJKLMNOPQRSTUVWXYZ0123456789".toList

/-- `''.join(random.choice(chars) for _ in range(12))` (line 134):
`pick i` models the i-th call to `random.choice`, reduced mod the
alphabet size. -/
def genSuffix (pick : Nat → Nat) : PyStr :=
  (List.range 12).map
    (fun i => pwChars.get ⟨pick i % pwChars.length, Nat.mod_lt _ (by decide)⟩)

/-- `get_password` (lines 129-136): strip the entered line; when empty,
generate `salt_<12 random alphanumerics>`; otherwise use the stripped
line. -/
def get_password (line salt : PyStr) (pick : Nat → Nat) : PyStr :=
  let pwd := pyStrip line
  if pwd = [] then salt ++ '_' :: genSuffix pick else pwd

/-- Python `str.strip("/")`: drop leading and trailing slashes. -/
def stripSlashes (s : PyStr) : PyStr :=
  ((s.dropWhile (fun c => c == '/')).reverse.dropWhile (fun c => c == '/')).reverse

/-- Result of `get_custom_destination_path` on a finite list of entered
lines: a returned path, a process exit (`q`/`quit` inside `get_input`),
or `pending` when every supplied line was rejected and the loop is still
prompting. -/
inductive PathOutcome
  | ret (p : PyStr)
  | exit0
  | pending
  deriving DecidableEq

/-- `get_custom_destination_path` (lines 138-151): strip slashes from the
entered line; empty means the default; a path splitting into more than
two `/`-segments (empty segments included, as `str.split` counts them) is
rejected and the loop re-prompts; anything else is returned as stripped. -/
def get_custom_destination_path (dflt : PyStr) : List PyStr → PathOutcome
  | [] => .pending
  | line :: rest =>
    match get_input line [] with
    | .exit0 => .exit0
    | .value v =>
      let path := stripSlashes v
      if path = [] then .ret dflt
      else if 2 < (pySplit '/' path).length then get_custom_destination_path dflt rest
      else .ret path

/-- A resolved destination as built in `main` (lines 348-349, 356, 363,
369): a `(kind, identifier)` pair with kind `"disk"` or `"cloud"`. -/
abbrev Dest := PyStr × PyStr

/-- The sort key of line 372: `lambda x: x[0] == 'cloud'`. -/
def destSortKey (d : Dest) : Bool := d.1 == "cloud".toList

/-- Insert one destination into an already-sorted accumulator, before the
first element with a strictly larger key (so after all equal keys, which
is what makes the overall sort stable). -/
def insertDest (x : Dest) : List Dest → List Dest
  | [] => [x]
  | y :: ys =>
    if !destSortKey x && destSortKey y then x :: y :: ys
    else y :: insertDest x ys

/-- `destinations.sort(key=lambda x: x[0] == 'cloud')` (line 372):
Python's stable sort by a Boolean key, modelled as a stable insertion
sort processing the list left to right. -/
def sortDestinations (l : List Dest) : List Dest :=
  l.foldl (fun acc x => insertDest x acc) []

/-- The per-destination execution loop of `main` (lines 384-394).
`strat` models the chosen handler (`handle_secure_backup` or
`handle_simple_copy`) returning `(success, result_data)`.  Returns the
accumulated `results` list and the list of destinations whose handler
was actually invoked, in invocation order: on the first failure the
loop prints an error and `break`s, so nothing after the failed
destination is invoked and no entry is appended for it. -/
def runDestinations {ρ : Type} (strat : Dest → Bool × ρ) : List Dest → List ρ × List Dest
  | [] => ([], [])
  | d :: rest =>
    let sr := strat d
    if sr.1 then
      let r := runDestinations strat rest
      (sr.2 :: r.1, d :: r.2)
    else ([], [d])

/-- The commands `handle_secure_backup` can issue, in order: the
`restic snapshots` probe, `restic init`, and `restic backup`. -/
inductive SecStep
  | probe
  | init
  | backupCmd
  deriving DecidableEq

/-- External world of one `handle_secure_backup` run: the probe's
success flag, the user's answer to the proceed confirmation, and the
outcomes of the (possibly skipped) init and backup commands. -/
structure SecEnv where
  probeOk : Bool
  confirmProceed : Bool
  initOk : Bool
  backupOk : Bool
  backupOutput : List PyStr

/-- The per-destination result dictionary (`destination`/`summary`). -/
structure BackupResult where
  destination : PyStr
  summary : List PyStr
  deriving DecidableEq

/-- The keyword list of line 267. -/
def resticKeywords : List PyStr :=
  ["files".toList, "dirs".toList, "added".toList, "processed".toList, "snapshot".toList]

/-- Python `l[-n:]`: the last `n` elements (all of them when shorter). -/
def lastN {α : Type} (n : Nat) (l : List α) : List α := l.drop (l.length - n)

/-- Summary extraction of line 267: of the last 10 output lines, keep
those whose lowercase form contains a restic keyword. -/
def secureSummary (output : List PyStr) : List PyStr :=
  (lastN 10 output).filter
    (fun line => resticKeywords.any (fun k => containsSub k (pyLower line)))

/-- `repo_name = f"{normalized_name}_encrypted"` (line 242). -/
def secureRepoName (nn : PyStr) : PyStr := nn ++ "_encrypted".toList

/-- `backup_name = f"{normalized_name}_backup"` (line 274). -/
def simpleBackupName (nn : PyStr) : PyStr := nn ++ "_backup".toList

/-- Repository path construction of lines 244-248 (`os.path.join` is
written out with `/` since no component is absolute). -/
def secureRepoPath (user dest_type dest_value custom_path nn : PyStr) : PyStr :=
  if dest_type = "cloud".toList then
    "rclone:".toList ++ dest_value ++ ":".toList ++ custom_path ++ "/".toList ++
      secureRepoName nn
  else
    "/run/media/".toList ++ user ++ "/".toList ++ dest_value ++ "/".toList ++
      custom_path ++ "/".toList ++ secureRepoName nn

/-- `handle_secure_backup` (lines 239-269), with the custom-path prompt
already resolved to `custom_path` and the interactive/subprocess world in
`env`.  Returns the issued-command trace, the classification string
(`backup_type`), and the `(success, result)` pair the function returns:
probe; classify; confirm (declining returns failure); when the repo is
absent run init, aborting on its failure before any backup; finally run
the backup and extract the summary. -/
def handle_secure_backup (user nn password dest_type dest_value custom_path : PyStr)
    (env : SecEnv) : List SecStep × PyStr × (Bool × Option BackupResult) :=
  let repo_path := secureRepoPath user dest_type dest_value custom_path nn
  let repo_exists := env.probeOk
  let backup_type := if repo_exists then "Incremental".toList else "Initial".toList
  if env.confirmProceed = false then
    ([.probe], backup_type, (false, none))
  else if repo_exists = false ∧ env.initOk = false then
    ([.probe, .init], backup_type, (false, none))
  else
    let steps := if repo_exists then [SecStep.probe, .backupCmd]
                 else [SecStep.probe, .init, .backupCmd]
    (steps, backup_type, (env.backupOk, some ⟨repo_path, secureSummary env.backupOutput⟩))

/-- External world of one `handle_simple_copy` run. -/
structure SimpleEnv where
  targetExists : Bool
  mergeAns : Bool
  proceedAns : Bool
  copyOk : Bool
  copyOutput : List PyStr

/-- Target path construction of lines 276-280. -/
def simpleProjectPath (user dest_type dest_value custom_path nn : PyStr) : PyStr :=
  if dest_type = "cloud".toList then
    dest_value ++ ":".toList ++ custom_path ++ "/".toList ++ simpleBackupName nn
  else
    "/run/media/".toList ++ user ++ "/".toList ++ dest_value ++ "/".toList ++
      custom_path ++ "/".toList ++ simpleBackupName nn

/-- Summary extraction of lines 293-294. -/
def simpleSummary (output : List PyStr) : List PyStr :=
  let summary_lines := output.filter
    (fun line => containsSub "Transferred".toList line ||
                 containsSub "Errors".toList line || containsSub "Checks".toList line)
  if summary_lines = [] then ["No summary available.".toList] else lastN 3 summary_lines

/-- `handle_simple_copy` (lines 271-296), with the custom-path prompt
resolved and the world in `env`; `today` is `datetime.now().strftime('%Y%m%d')`. -/
def handle_simple_copy (user nn dest_type dest_value custom_path today : PyStr)
    (env : SimpleEnv) : Bool × Option BackupResult :=
  let base := simpleProjectPath user dest_type dest_value custom_path nn
  let project_path :=
    if env.targetExists = true ∧ env.mergeAns = false then
      base ++ "_duplicated_".toList ++ today
    else base
  if env.proceedAns = false then (false, none)
  else (env.copyOk, some ⟨project_path, simpleSummary env.copyOutput⟩)

/-- Claim C1: in the per-destination loop, once some destination's
strategy invocation fails (all earlier ones having succeeded), no later
destination's strategy is invoked, the failed destination contributes no
result entry, and the results of the earlier successful destinations are
exactly the accumulated result set. -/
theorem C1_sequential_halt {ρ : Type} (strat : Dest → Bool × ρ)
    (pre post : List Dest) (d : Dest)
    (hpre : ∀ x ∈ pre, (strat x).1 = true) (hd : (strat d).1 = false) :
    (runDestinations strat (pre ++ d :: post)).2 = pre ++ [d] ∧
    (runDestinations strat (pre ++ d :: post)).1 =
      pre.map (fun x => (strat x).2) := by
  induction pre with
  | nil => simp [runDestinations, hd]
  | cons x pre ih =>
    have hx : (strat x).1 = true := hpre x (by simp)
    have ih' := ih (fun y hy => hpre y (by simp [hy]))
    simp [runDestinations, hx, ih'.1, ih'.2]

/-- Claim C1 witness: with exactly two destinations where the first
fails, the result set is empty and only the first destination's strategy
is ever invoked. -/
theorem C1_sequential_halt_witness :
    (∀ x ∈ ([] : List Dest),
       ((fun d : Dest => (d.2 == "ok".toList, (0 : Nat))) x).1 = true) ∧
    ((fun d : Dest => (d.2 == "ok".toList, (0 : Nat)))
       (("disk".toList, "no".toList) : Dest)).1 = false ∧
    (runDestinations (fun d : Dest => (d.2 == "ok".toList, (0 : Nat)))
       ([] ++ ("disk".toList, "no".toList) :: [("disk".toList, "ok".toList)])).2 =
      [] ++ [(("disk".toList, "no".toList) : Dest)] ∧
    (runDestinations (fun d : Dest => (d.2 == "ok".toList, (0 : Nat)))
       ([] ++ ("disk".toList, "no".toList) :: [("disk".toList, "ok".toList)])).1 =
      ([] : List Dest).map (fun x => ((fun d : Dest => (d.2 == "ok".toList, (0 : Nat))) x).2) := by
  refine ⟨by simp, by decide, ?_, ?_⟩
  · exact (C1_sequential_halt (fun d : Dest => (d.2 == "ok".toList, (0 : Nat)))
      [] [("disk".toList, "ok".toList)] ("disk".toList, "no".toList)
      (by simp) (by decide)).1
  · exact (C1_sequential_halt (fun d : Dest => (d.2 == "ok".toList, (0 : Nat)))
      [] [("disk".toList, "ok".toList)] ("disk".toList, "no".toList)
      (by simp) (by decide)).2

/-- Claim C9 counterexample: in streamed mode an exception is reported
through the exception's own text appended to the output lines, not
through the generic message the claim announces for both modes. -/
theorem C9_counterexample :
    runCmdWithProgress [] (Except.error ("boom".toList)) =
      (false, [("boom".toList : PyStr)]) ∧
    ("boom".toList : PyStr) ≠ "Failed to execute command.".toList := by
  exact ⟨rfl, by decide⟩

/-- Claim C9 (amended): any execution exception is caught and converted
into a failure result; the caller gets only the (boolean, output) pair.
In silent mode the output is the fixed generic message; in streamed mode
the exception's text is appended to the lines collected so far. -/
theorem C9_exception_policy (e : PyStr) (linesRead : List PyStr) :
    runCmd (Except.error e) = (false, "Failed to execute command.".toList) ∧
    runCmdWithProgress linesRead (Except.error e) = (false, linesRead ++ [e]) :=
  ⟨rfl, rfl⟩

theorem insertDest_false_split (x : Dest) :
    ∀ (fs ts : List Dest), (∀ y ∈ fs, destSortKey y = false) →
    (∀ y ∈ ts, destSortKey y = true) → destSortKey x = false →
    insertDest x (fs ++ ts) = fs ++ x :: ts := by
  intro fs
  induction fs with
  | nil =>
    intro ts _ ht hx
    cases ts with
    | nil => rfl
    | cons t ts' =>
      have : destSortKey t = true := ht t (by simp)
      simp [insertDest, hx, this]
  | cons f fs' ih =>
    intro ts hf ht hx
    have hfk : destSortKey f = false := hf f (by simp)
    have := ih ts (fun y hy => hf y (by simp [hy])) ht hx
    simp [insertDest, hfk, this]

theorem insertDest_true_append (x : Dest) (hx : destSortKey x = true) :
    ∀ (l : List Dest), insertDest x l = l ++ [x] := by
  intro l
  induction l with
  | nil => rfl
  | cons y ys ih => simp [insertDest, hx, ih]

theorem sortDestinations_foldl_aux :
    ∀ (l fs ts : List Dest), (∀ y ∈ fs, destSortKey y = false) →
    (∀ y ∈ ts, destSortKey y = true) →
    List.foldl (fun acc x => insertDest x acc) (fs ++ ts) l =
      (fs ++ l.filter (fun d => !destSortKey d)) ++
        (ts ++ l.filter (fun d => destSortKey d)) := by
  intro l
  induction l with
  | nil => intro fs ts _ _; simp
  | cons x l' ih =>
    intro fs ts hf ht
    by_cases hx : destSortKey x = true
    · have h1 : insertDest x (fs ++ ts) = fs ++ (ts ++ [x]) := by
        rw [insertDest_true_append x hx (fs ++ ts)]
        simp
      have h2 := ih fs (ts ++ [x]) hf
        (by intro y hy; rcases List.mem_append.mp hy with h | h
            · exact ht y h
            · simp at h; simpa [h] using hx)
      simp only [List.foldl_cons, h1, h2]
      simp [List.filter_cons, hx]
    · have hx' : destSortKey x = false := by
        cases h : destSortKey x
        · rfl
        · exact absurd h hx
      have h1 : insertDest x (fs ++ ts) = (fs ++ [x]) ++ ts := by
        rw [insertDest_false_split x fs ts hf ht hx']
        simp
      have h2 := ih (fs ++ [x]) ts
        (by intro y hy; rcases List.mem_append.mp hy with h | h
            · exact hf y h
            · simp at h; simpa [h] using hx') ht
      simp only [List.foldl_cons, h1, h2]
      simp [List.filter_cons, hx']

/-- The re-sort of line 372 is exactly the stable partition: the
disk-kind entries in their original order, followed by the cloud-kind
entries in their original order. -/
theorem sortDestinations_eq_partition (l : List Dest) :
    sortDestinations l =
      l.filter (fun d => !destSortKey d) ++ l.filter (fun d => destSortKey d) := by
  have := sortDestinations_foldl_aux l [] [] (by simp) (by simp)
  simpa [sortDestinations] using this

/-- Claim C5: after the final re-sort, no cloud-kind destination precedes
any disk-kind one (pairwise, a cloud entry is only ever followed by cloud
entries), and the sort is stable: the relative order within each kind is
the order of the input list. -/
theorem C5_destination_ordering (l : List Dest) :
    List.Pairwise
      (fun a b => destSortKey a = true → destSortKey b = true)
      (sortDestinations l) ∧
    (sortDestinations l).filter (fun d => !destSortKey d) =
      l.filter (fun d => !destSortKey d) ∧
    (sortDestinations l).filter (fun d => destSortKey d) =
      l.filter (fun d => destSortKey d) := by
  rw [sortDestinations_eq_partition]
  refine ⟨?_, ?_, ?_⟩
  · apply List.pairwise_append.mpr
    refine ⟨?_, ?_, ?_⟩
    · apply List.pairwise_of_forall_mem_list
      intro a ha b _ hkey
      have : (!destSortKey a) = true := (List.mem_filter.mp ha).2
      simp [hkey] at this
    · apply List.pairwise_of_forall_mem_list
      intro a _ b hb _
      exact (List.mem_filter.mp hb).2
    · intro a _ b hb _
      exact (List.mem_filter.mp hb).2
  · rw [List.filter_append, List.filter_filter, List.filter_filter]
    rw [List.filter_congr (fun a _ => by cases destSortKey a <;> rfl :
          ∀ a ∈ l, ((!destSortKey a) && !destSortKey a) = !destSortKey a)]
    rw [List.filter_eq_nil_iff.mpr (fun a _ => by cases h : destSortKey a <;> simp [h] :
          ∀ a ∈ l, ¬(((!destSortKey a) && destSortKey a) = true))]
    simp
  · rw [List.filter_append, List.filter_filter, List.filter_filter]
    rw [List.filter_congr (fun a _ => by cases destSortKey a <;> rfl :
          ∀ a ∈ l, (destSortKey a && destSortKey a) = destSortKey a)]
    rw [List.filter_eq_nil_iff.mpr (fun a _ => by cases h : destSortKey a <;> simp [h] :
          ∀ a ∈ l, ¬((destSortKey a && !destSortKey a) = true))]
    simp

/-- Claim C4 counterexample: the confirmation prompt does not return
false on an unrecognized input such as "maybe"; the loop iteration
decides nothing (`none`) and the user is re-prompted, so with that single
line the prompt never returns at all. -/
theorem C4_counterexample :
    confirm_step ("maybe".toList) = none ∧ confirm [("maybe".toList)] = none := by
  exact ⟨by decide, by decide⟩

/-- Claim C4 (amended): a confirmation-prompt iteration returns true
exactly when the trimmed lowercased input is "y" or "yes", returns false
exactly when it is "n", "no" or empty, and otherwise returns nothing and
re-prompts. -/
theorem C4_confirm_semantics (line : PyStr) :
    (confirm_step line = some true ↔
       pyLower (pyStrip line) = "y".toList ∨ pyLower (pyStrip line) = "yes".toList) ∧
    (confirm_step line = some false ↔
       pyLower (pyStrip line) = "n".toList ∨ pyLower (pyStrip line) = "no".toList ∨
       pyLower (pyStrip line) = []) ∧
    (∀ rest, confirm_step line = none →
       confirm (line :: rest) = confirm rest) := by
  refine ⟨?_, ?_, ?_⟩
  · simp only [confirm_step]
    split_ifs with h1 h2 <;> simp_all
  · simp only [confirm_step]
    split_ifs with h1 h2
    · constructor
      · intro hc; simp at hc
      · rintro (hc | hc | hc) <;> rcases h1 with h | h <;>
          rw [h] at hc <;> exact absurd hc (by decide)
    · simpa using h2
    · constructor
      · intro hc; simp at hc
      · intro hc; exact absurd hc h2
  · intro rest h
    simp [confirm, h]

/-- Claim C4 witness: " YES " is accepted as true, via the amended
characterization. -/
theorem C4_confirm_semantics_witness :
    confirm_step (" YES ".toList) = some true :=
  (C4_confirm_semantics (" YES ".toList)).1.mpr (Or.inr (by decide))

/-- Claim C3 counterexample: entering "q" at a confirmation prompt does
not terminate the process — the iteration decides nothing and the loop
re-prompts — and at the password prompt "q" is simply used verbatim as
the password.  Only `get_input` implements the quit shortcut. -/
theorem C3_counterexample :
    confirm_step ("q".toList) = none ∧ confirm [("q".toList)] = none ∧
    get_password ("q".toList) ("salt".toList) (fun _ => 0) = "q".toList := by
  exact ⟨by decide, by decide, by decide⟩

/-- Claim C3 (amended): a case-insensitive "q"/"quit" causes immediate
termination with exit code 0 at the general input prompts (`get_input`),
while a confirmation prompt treats it as unrecognized input and
re-prompts, and the password prompt takes it verbatim as the password. -/
theorem C3_quit_semantics (line dflt salt : PyStr) (pick : Nat → Nat)
    (h : pyLower (pyStrip line) = "q".toList ∨
         pyLower (pyStrip line) = "quit".toList) :
    get_input line dflt = .exit0 ∧
    confirm_step line = none ∧
    get_password line salt pick = pyStrip line := by
  refine ⟨?_, ?_, ?_⟩
  · unfold get_input
    rw [if_pos h]
  · rcases h with h | h <;> simp only [confirm_step, h] <;> decide
  · have hne : pyStrip line ≠ [] := by
      intro h0
      rcases h with h | h <;> rw [h0] at h <;> exact absurd h (by decide)
    simp [get_password, hne]

/-- Claim C3 witness: "QuIt" quits at `get_input`, is unrecognized at a
confirmation prompt, and is taken verbatim at the password prompt. -/
theorem C3_quit_semantics_witness :
    (pyLower (pyStrip ("QuIt".toList)) = "q".toList ∨
     pyLower (pyStrip ("QuIt".toList)) = "quit".toList) ∧
    get_input ("QuIt".toList) ("d".toList) = .exit0 ∧
    confirm_step ("QuIt".toList) = none ∧
    get_password ("QuIt".toList) ("s".toList) (fun _ => 0) =
      pyStrip ("QuIt".toList) := by
  have h : pyLower (pyStrip ("QuIt".toList)) = "q".toList ∨
      pyLower (pyStrip ("QuIt".toList)) = "quit".toList := Or.inr (by decide)
  exact ⟨h,
    (C3_quit_semantics ("QuIt".toList) ("d".toList) ("s".toList) (fun _ => 0) h).1,
    (C3_quit_semantics ("QuIt".toList) ("d".toList) ("s".toList) (fun _ => 0) h).2.1,
    (C3_quit_semantics ("QuIt".toList) ("d".toList) ("s".toList) (fun _ => 0) h).2.2⟩

/-- Claim C2 counterexample: "a//b" has exactly two non-empty
`/`-delimited segments after stripping, yet the prompt rejects it and
re-prompts (`str.split('/')` also counts the empty middle segment). -/
theorem C2_counterexample :
    ((pySplit '/' (stripSlashes (pyStrip ("a//b".toList)))).filter
       (fun seg => !seg.isEmpty)).length = 2 ∧
    get_custom_destination_path ("backups".toList) [("a//b".toList)] =
      .pending := by
  exact ⟨by decide, by decide⟩

/-- Claim C2 (amended): for a non-quit input line, the prompt strips
slashes; an empty result returns the caller's default; a result whose
`/`-split — counting empty segments, as Python's `str.split` does — has
at most 2 segments is returned as stripped; one with more than 2 split
segments is rejected and the loop re-prompts on the remaining input. -/
theorem C2_custom_path_semantics (dflt line : PyStr) (rest : List PyStr)
    (hq : ¬(pyLower (pyStrip line) = "q".toList ∨
            pyLower (pyStrip line) = "quit".toList)) :
    (stripSlashes (pyStrip line) = [] →
       get_custom_destination_path dflt (line :: rest) = .ret dflt) ∧
    (stripSlashes (pyStrip line) ≠ [] →
     (pySplit '/' (stripSlashes (pyStrip line))).length ≤ 2 →
       get_custom_destination_path dflt (line :: rest) =
         .ret (stripSlashes (pyStrip line))) ∧
    (2 < (pySplit '/' (stripSlashes (pyStrip line))).length →
       get_custom_destination_path dflt (line :: rest) =
         get_custom_destination_path dflt rest) := by
  have hin : get_input line [] = .value (pyStrip line) := by
    unfold get_input
    rw [if_neg hq]
    by_cases h0 : pyStrip line = []
    · rw [if_pos h0, h0]
    · rw [if_neg h0]
  refine ⟨?_, ?_, ?_⟩
  · intro hp
    simp only [get_custom_destination_path, hin, hp]
    rfl
  · intro hp hlen
    simp only [get_custom_destination_path, hin]
    rw [if_neg hp, if_neg (Nat.not_lt.mpr hlen)]
  · intro hgt
    have hp : stripSlashes (pyStrip line) ≠ [] := by
      intro h0
      rw [h0] at hgt
      exact absurd hgt (by decide)
    simp only [get_custom_destination_path, hin]
    rw [if_neg hp, if_pos hgt]

/-- Claim C2 witness: "a/b" (two segments) is accepted and returned as
stripped. -/
theorem C2_custom_path_semantics_witness :
    ¬(pyLower (pyStrip ("a/b".toList)) = "q".toList ∨
      pyLower (pyStrip ("a/b".toList)) = "quit".toList) ∧
    get_custom_destination_path ("backups".toList) [("a/b".toList)] =
      .ret (stripSlashes (pyStrip ("a/b".toList))) := by
  have hq : ¬(pyLower (pyStrip ("a/b".toList)) = "q".toList ∨
      pyLower (pyStrip ("a/b".toList)) = "quit".toList) := by decide
  exact ⟨hq, (C2_custom_path_semantics ("backups".toList) ("a/b".toList) [] hq).2.1
    (by decide) (by decide)⟩

/-- Claim C8 counterexample: the non-empty input " x " is not used
verbatim — the prompt strips surrounding whitespace first, so the
password is "x". -/
theorem C8_counterexample :
    get_password (" x ".toList) ("s".toList) (fun _ => 0) = "x".toList ∧
    ("x".toList : PyStr) ≠ " x ".toList := by
  exact ⟨by decide, by decide⟩

/-- Claim C8 (amended): the entered line is first stripped of
surrounding whitespace; if the stripped line is empty the password is the
salt, an underscore, and exactly 12 characters drawn from the ASCII
letters and digits; otherwise the stripped line itself is the password. -/
theorem C8_password_semantics (line salt : PyStr) (pick : Nat → Nat) :
    (pyStrip line = [] →
       get_password line salt pick = salt ++ '_' :: genSuffix pick ∧
       (genSuffix pick).length = 12 ∧
       ∀ c ∈ genSuffix pick, c ∈ pwChars ∧ c.isAlphanum = true) ∧
    (pyStrip line ≠ [] → get_password line salt pick = pyStrip line) := by
  constructor
  · intro h
    refine ⟨by simp [get_password, h], by simp [genSuffix], ?_⟩
    intro c hc
    simp only [genSuffix, List.mem_map] at hc
    obtain ⟨i, _, hi⟩ := hc
    have hmem : c ∈ pwChars := by
      rw [← hi]
      exact List.get_mem pwChars _ _
    refine ⟨hmem, ?_⟩
    have : ∀ x ∈ pwChars, x.isAlphanum = true := by decide
    exact this c hmem
  · intro h
    simp [get_password, h]

/-- Claim C8 witness: empty input with a concrete picking function
produces `salt`, `_`, and a 12-character alphanumeric suffix. -/
theorem C8_password_semantics_witness :
    pyStrip ([] : PyStr) = [] ∧
    get_password [] ("s".toList) (fun _ => 0) =
      "s".toList ++ '_' :: genSuffix (fun _ => 0) ∧
    (genSuffix (fun _ => 0)).length = 12 := by
  have h := (C8_password_semantics [] ("s".toList) (fun _ => 0)).1 (by decide)
  exact ⟨by decide, h.1, h.2.1⟩

/-- Claim C6: in the Secure Strategy, a successful repository probe
classifies the run as "Incremental" and no init command is ever issued;
a failed probe classifies it as "Initial" and, once the user confirms,
the init command runs before the backup command, a failed init aborting
this destination with no backup command issued. -/
theorem C6_secure_classification
    (user nn password dest_type dest_value custom_path : PyStr) (env : SecEnv) :
    (env.probeOk = true →
       (handle_secure_backup user nn password dest_type dest_value custom_path env).2.1 =
         "Incremental".toList ∧
       SecStep.init ∉
         (handle_secure_backup user nn password dest_type dest_value custom_path env).1) ∧
    (env.probeOk = false →
       (handle_secure_backup user nn password dest_type dest_value custom_path env).2.1 =
         "Initial".toList ∧
       (env.confirmProceed = true → env.initOk = false →
          (handle_secure_backup user nn password dest_type dest_value custom_path env).1 =
            [SecStep.probe, SecStep.init] ∧
          SecStep.backupCmd ∉
            (handle_secure_backup user nn password dest_type dest_value custom_path env).1 ∧
          (handle_secure_backup user nn password dest_type dest_value custom_path env).2.2 =
            (false, none)) ∧
       (env.confirmProceed = true → env.initOk = true →
          (handle_secure_backup user nn password dest_type dest_value custom_path env).1 =
            [SecStep.probe, SecStep.init, SecStep.backupCmd])) := by
  obtain ⟨p, cf, io, bo, out⟩ := env
  cases p <;> cases cf <;> cases io <;>
    simp [handle_secure_backup]

/-- Claim C6 witness: with a failed probe, a confirming user and a
successful init, the issued commands are probe, init, backup in that
order, and the classification is "Initial". -/
theorem C6_secure_classification_witness :
    (SecEnv.mk false true true true []).probeOk = false ∧
    (handle_secure_backup ("u".toList) ("docs".toList) ("pw".toList)
       ("disk".toList) ("D1".toList) ("manual_nas_encrypted".toList)
       (SecEnv.mk false true true true [])).2.1 = "Initial".toList ∧
    (handle_secure_backup ("u".toList) ("docs".toList) ("pw".toList)
       ("disk".toList) ("D1".toList) ("manual_nas_encrypted".toList)
       (SecEnv.mk false true true true [])).1 =
      [SecStep.probe, SecStep.init, SecStep.backupCmd] := by
  refine ⟨rfl, ?_, ?_⟩
  · exact ((C6_secure_classification ("u".toList) ("docs".toList) ("pw".toList)
      ("disk".toList) ("D1".toList) ("manual_nas_encrypted".toList)
      (SecEnv.mk false true true true [])).2 rfl).1
  · exact (((C6_secure_classification ("u".toList) ("docs".toList) ("pw".toList)
      ("disk".toList) ("D1".toList) ("manual_nas_encrypted".toList)
      (SecEnv.mk false true true true [])).2 rfl).2.2) rfl rfl

/-- Claim C10 counterexample: "-" contains no ASCII word character, yet
`normalize_name` returns "_" (hyphens survive the character-class filter
and are then collapsed to an underscore), not the empty string. -/
theorem C10_counterexample :
    (("-".toList : PyStr).all (fun c => !isWordChar c)) = true ∧
    normalize_name ("-".toList) = "_".toList ∧
    ("_".toList : PyStr) ≠ [] := by
  exact ⟨by decide, by decide, by decide⟩

theorem dropWhile_eq_nil_of_all {p : Char → Bool} :
    ∀ {l : PyStr}, (∀ c ∈ l, p c = true) → l.dropWhile p = [] := by
  intro l
  induction l with
  | nil => intro _; rfl
  | cons c tl ih =>
    intro h
    rw [List.dropWhile_cons, if_pos (h c (by simp))]
    exact ih (fun x hx => h x (by simp [hx]))

theorem pyStrip_eq_nil_of_all {l : PyStr} (h : ∀ c ∈ l, isPySpace c = true) :
    pyStrip l = [] := by
  unfold pyStrip
  rw [dropWhile_eq_nil_of_all h]
  rfl

/-- Claim C10 (amended): for every source base name consisting only of
ASCII characters, none of which is a word character or a hyphen (e.g.
ASCII punctuation other than `-`, or whitespace), `normalize_name`
returns the empty string and the derived leaf names degenerate to
exactly "_encrypted" and "_backup"; and no operation guards against the
name — both handlers behave identically (same command trace,
classification, and success flag) whatever the normalized name is.  The
hypothesis restricts the statement to ASCII input, where the NFKD fold
of line 55 is the identity and `asciiFold` models it exactly; a
non-ASCII character such as `é` is outside the claim, since the program
first decomposes it to an ASCII word character. -/
theorem C10_empty_normalized_name (s : PyStr)
    (h : ∀ c ∈ s, c.toNat < 128 ∧ isWordChar c = false ∧ c ≠ '-') :
    normalize_name s = [] ∧
    secureRepoName (normalize_name s) = "_encrypted".toList ∧
    simpleBackupName (normalize_name s) = "_backup".toList ∧
    (∀ nn user password dest_type dest_value custom_path env,
       (handle_secure_backup user nn password dest_type dest_value custom_path env).1 =
         (handle_secure_backup user [] password dest_type dest_value custom_path env).1 ∧
       (handle_secure_backup user nn password dest_type dest_value custom_path env).2.1 =
         (handle_secure_backup user [] password dest_type dest_value custom_path env).2.1 ∧
       (handle_secure_backup user nn password dest_type dest_value custom_path env).2.2.1 =
         (handle_secure_backup user [] password dest_type dest_value custom_path env).2.2.1) ∧
    (∀ nn user dest_type dest_value custom_path today env,
       (handle_simple_copy user nn dest_type dest_value custom_path today env).1 =
         (handle_simple_copy user [] dest_type dest_value custom_path today env).1) := by
  have hnil : normalize_name s = [] := by
    unfold normalize_name
    have hsp : ∀ c ∈ (asciiFold s).filter keepChar, isPySpace c = true := by
      intro c hc
      have hm := List.mem_filter.mp hc
      have hs : c ∈ s := (List.mem_filter.mp hm.1).1
      have hw : isWordChar c = false := (h c hs).2.1
      have hd : c ≠ '-' := (h c hs).2.2
      have hk := hm.2
      simp only [keepChar, Bool.or_eq_true, beq_iff_eq] at hk
      rcases hk with (hk | hk) | hk
      · rw [hw] at hk; exact absurd hk (by simp)
      · exact hk
      · exact absurd hk hd
    rw [pyStrip_eq_nil_of_all hsp]
    rfl
  refine ⟨hnil, by rw [hnil]; rfl, by rw [hnil]; rfl, ?_, ?_⟩
  · intro nn user password dest_type dest_value custom_path env
    obtain ⟨p, cf, io, bo, out⟩ := env
    cases p <;> cases cf <;> cases io <;> simp [handle_secure_backup]
  · intro nn user dest_type dest_value custom_path today env
    obtain ⟨te, ma, pa, co, out⟩ := env
    cases te <;> cases ma <;> cases pa <;> simp [handle_simple_copy]

/-- Claim C10 witness: the purely ASCII punctuation name "!!!" (no word
characters, no hyphens) normalizes to the empty string, whose leaf names
are exactly "_encrypted" and "_backup". -/
theorem C10_empty_normalized_name_witness :
    (∀ c ∈ ("!!!".toList : PyStr), c.toNat < 128 ∧ isWordChar c = false ∧ c ≠ '-') ∧
    normalize_name ("!!!".toList) = [] ∧
    secureRepoName (normalize_name ("!!!".toList)) = "_encrypted".toList ∧
    simpleBackupName (normalize_name ("!!!".toList)) = "_backup".toList := by
  have h : ∀ c ∈ ("!!!".toList : PyStr),
      c.toNat < 128 ∧ isWordChar c = false ∧ c ≠ '-' := by decide
  exact ⟨h, (C10_empty_normalized_name ("!!!".toList) h).1,
    (C10_empty_normalized_name ("!!!".toList) h).2.1,
    (C10_empty_normalized_name ("!!!".toList) h).2.2.1⟩

theorem char_le_iff {a b : Char} : a ≤ b ↔ a.toNat ≤ b.toNat := by
  rw [Char.le_def]
  exact Iff.rfl

theorem toNat_ofNat_lt {n : Nat} (h : n < 55296) : (Char.ofNat n).toNat = n := by
  unfold Char.ofNat
  rw [dif_pos (Or.inl h)]
  show (BitVec.ofNatLt n _).toNat = n
  simp [BitVec.toNat_ofNatLt]

theorem toLower_eq_self {c : Char} (h : ¬(c.toNat ≥ 65 ∧ c.toNat ≤ 90)) :
    c.toLower = c := by
  unfold Char.toLower
  rw [if_neg h]

theorem toLower_toNat_of_upper {c : Char} (h65 : 65 ≤ c.toNat) (h90 : c.toNat ≤ 90) :
    c.toLower.toNat = c.toNat + 32 := by
  unfold Char.toLower
  rw [if_pos ⟨h65, h90⟩]
  exact toNat_ofNat_lt (by omega)

theorem isAlphanum_iff {c : Char} :
    c.isAlphanum = true ↔
      (65 ≤ c.toNat ∧ c.toNat ≤ 90) ∨ (97 ≤ c.toNat ∧ c.toNat ≤ 122) ∨
      (48 ≤ c.toNat ∧ c.toNat ≤ 57) := by
  simp only [Char.isAlphanum, Char.isAlpha, Char.isUpper, Char.isLower, Char.isDigit,
    Bool.or_eq_true, Bool.and_eq_true, decide_eq_true_eq]
  rw [or_assoc]
  exact Iff.rfl

theorem isPySpace_le {c : Char} (h : isPySpace c = true) : c.toNat ≤ 32 := by
  simp only [isPySpace, Bool.or_eq_true, Bool.and_eq_true, beq_iff_eq,
    decide_eq_true_eq] at h
  rcases h with ((((((h | h) | h) | h) | h) | h) | h)
  · rw [h]; decide
  · rw [h]; decide
  · rw [h]; decide
  · rw [h]; decide
  · omega
  · omega
  · omega

theorem isPySpace_eq_false {c : Char} (h : 32 < c.toNat) : isPySpace c = false := by
  cases hc : isPySpace c
  · rfl
  · exact absurd (isPySpace_le hc) (by omega)

theorem isSepChar_eq_false_of_alnum {c : Char}
    (h : (97 ≤ c.toNat ∧ c.toNat ≤ 122) ∨ (48 ≤ c.toNat ∧ c.toNat ≤ 57)) :
    isSepChar c = false := by
  have hps : isPySpace c = false := isPySpace_eq_false (by omega)
  have h95 : c ≠ '_' := by
    intro he; rw [he] at h; revert h; decide
  have h45 : c ≠ '-' := by
    intro he; rw [he] at h; revert h; decide
  have hb1 : (c == '_') = false := beq_eq_false_iff_ne.mpr h95
  have hb2 : (c == '-') = false := beq_eq_false_iff_ne.mpr h45
  simp [isSepChar, hps, hb1, hb2]

theorem mem_of_mem_pyStrip {c : Char} {l : PyStr} (h : c ∈ pyStrip l) : c ∈ l := by
  unfold pyStrip at h
  rw [List.mem_reverse] at h
  have h1 : c ∈ (l.dropWhile isPySpace).reverse :=
    List.Sublist.mem h (List.dropWhile_sublist _)
  rw [List.mem_reverse] at h1
  exact List.Sublist.mem h1 (List.dropWhile_sublist _)

theorem dropWhile_eq_self_of_all {p : Char → Bool} {l : PyStr}
    (h : ∀ c ∈ l, p c = false) : l.dropWhile p = l := by
  cases l with
  | nil => rfl
  | cons a tl => rw [List.dropWhile_cons, if_neg (by simp [h a (by simp)])]

theorem pyStrip_eq_self_of_all {l : PyStr} (h : ∀ c ∈ l, isPySpace c = false) :
    pyStrip l = l := by
  unfold pyStrip
  rw [dropWhile_eq_self_of_all h]
  rw [dropWhile_eq_self_of_all (fun c hc => h c (List.mem_reverse.mp hc))]
  exact List.reverse_reverse l

theorem map_eq_self_of_all {f : Char → Char} :
    ∀ {l : PyStr}, (∀ c ∈ l, f c = c) → l.map f = l := by
  intro l
  induction l with
  | nil => intro _; rfl
  | cons a tl ih =>
    intro h
    simp only [List.map_cons, h a (by simp), ih (fun c hc => h c (by simp [hc]))]

theorem collapseSeps_cons_nonsep {c : Char} (hc : isSepChar c = false) :
    ∀ (l : PyStr), collapseSeps (c :: l) = c :: collapseSeps l := by
  intro l
  cases l with
  | nil => simp [collapseSeps, hc]
  | cons d tl => simp [collapseSeps, hc]

theorem mem_collapseSeps :
    ∀ (l : PyStr) (c : Char), c ∈ collapseSeps l →
      c = '_' ∨ (c ∈ l ∧ isSepChar c = false) := by
  intro l
  induction l with
  | nil => intro c hc; simp [collapseSeps] at hc
  | cons a tl ih =>
    cases tl with
    | nil =>
      intro c hc
      cases ha : isSepChar a
      · rw [show collapseSeps [a] = [a] from by simp [collapseSeps, ha]] at hc
        simp at hc
        right
        exact ⟨by simp [hc], by rw [hc]; exact ha⟩
      · rw [show collapseSeps [a] = ['_'] from by simp [collapseSeps, ha]] at hc
        simp at hc
        left; exact hc
    | cons b tl' =>
      intro c hc
      cases ha : isSepChar a
      · rw [collapseSeps_cons_nonsep ha] at hc
        rcases List.mem_cons.mp hc with h | h
        · right
          exact ⟨by simp [h], by rw [h]; exact ha⟩
        · rcases ih c h with h' | ⟨h1, h2⟩
          · left; exact h'
          · right; exact ⟨List.mem_cons_of_mem a h1, h2⟩
      · cases hb : isSepChar b
        · rw [show collapseSeps (a :: b :: tl') = '_' :: collapseSeps (b :: tl') from by
            simp [collapseSeps, ha, hb]] at hc
          rcases List.mem_cons.mp hc with h | h
          · left; exact h
          · rcases ih c h with h' | ⟨h1, h2⟩
            · left; exact h'
            · right; exact ⟨List.mem_cons_of_mem a h1, h2⟩
        · rw [show collapseSeps (a :: b :: tl') = collapseSeps (b :: tl') from by
            simp [collapseSeps, ha, hb]] at hc
          rcases ih c hc with h' | ⟨h1, h2⟩
          · left; exact h'
          · right; exact ⟨List.mem_cons_of_mem a h1, h2⟩

theorem noAdjSeps_cons_nonsep {a : Char} (ha : isSepChar a = false)
    {l : PyStr} (hl : noAdjSeps l = true) : noAdjSeps (a :: l) = true := by
  cases l with
  | nil => rfl
  | cons b tl => simp [noAdjSeps, ha, hl]

theorem collapseSeps_noAdj : ∀ (l : PyStr), noAdjSeps (collapseSeps l) = true := by
  intro l
  induction l with
  | nil => rfl
  | cons a tl ih =>
    cases tl with
    | nil =>
      cases ha : isSepChar a
      · rw [show collapseSeps [a] = [a] from by simp [collapseSeps, ha]]; rfl
      · rw [show collapseSeps [a] = ['_'] from by simp [collapseSeps, ha]]; rfl
    | cons b tl' =>
      cases ha : isSepChar a
      · rw [collapseSeps_cons_nonsep ha]
        exact noAdjSeps_cons_nonsep ha ih
      · cases hb : isSepChar b
        · rw [show collapseSeps (a :: b :: tl') = '_' :: collapseSeps (b :: tl') from by
            simp [collapseSeps, ha, hb]]
          rw [collapseSeps_cons_nonsep hb]
          have ih' : noAdjSeps (b :: collapseSeps tl') = true := by
            rw [← collapseSeps_cons_nonsep hb]; exact ih
          simp [noAdjSeps, hb, ih']
        · rw [show collapseSeps (a :: b :: tl') = collapseSeps (b :: tl') from by
            simp [collapseSeps, ha, hb]]
          exact ih

theorem collapseSeps_fixed :
    ∀ (l : PyStr), (∀ c ∈ l, isSepChar c = true → c = '_') →
      noAdjSeps l = true → collapseSeps l = l := by
  intro l
  induction l with
  | nil => intro _ _; rfl
  | cons a tl ih =>
    cases tl with
    | nil =>
      intro h _
      cases ha : isSepChar a
      · simp [collapseSeps, ha]
      · have ha' : a = '_' := h a (by simp) ha
        simp [collapseSeps, ha, ha']
    | cons b tl' =>
      intro h hna
      have hna' : noAdjSeps (b :: tl') = true := by
        simp only [noAdjSeps, Bool.and_eq_true] at hna
        exact hna.2
      have hrec := ih (fun c hc hs => h c (by simp [hc]) hs) hna'
      cases ha : isSepChar a
      · rw [collapseSeps_cons_nonsep ha, hrec]
      · have hb : isSepChar b = false := by
          have h1 := hna
          simp only [noAdjSeps, Bool.and_eq_true] at h1
          have h2 := h1.1
          rw [ha] at h2
          simpa using h2
        have ha' : a = '_' := h a (by simp) ha
        rw [show collapseSeps (a :: b :: tl') = '_' :: collapseSeps (b :: tl') from by
          simp [collapseSeps, ha, hb]]
        rw [hrec, ha']

theorem mem_preNorm (s : PyStr) :
    ∀ c ∈ pyLower (pyStrip ((asciiFold s).filter keepChar)),
      isSepChar c = true ∨ (97 ≤ c.toNat ∧ c.toNat ≤ 122) ∨
        (48 ≤ c.toNat ∧ c.toNat ≤ 57) := by
  intro c hc
  unfold pyLower at hc
  rw [List.mem_map] at hc
  obtain ⟨d, hd, rfl⟩ := hc
  have hk : keepChar d = true := (List.mem_filter.mp (mem_of_mem_pyStrip hd)).2
  simp only [keepChar, isWordChar, Bool.or_eq_true, beq_iff_eq] at hk
  rcases hk with ((hk | hk) | hk) | hk
  · rcases isAlphanum_iff.mp hk with ⟨h1, h2⟩ | ⟨h1, h2⟩ | ⟨h1, h2⟩
    · right; left
      rw [toLower_toNat_of_upper h1 h2]
      constructor <;> omega
    · right; left
      rw [toLower_eq_self (by omega)]
      exact ⟨h1, h2⟩
    · right; right
      rw [toLower_eq_self (by omega)]
      exact ⟨h1, h2⟩
  · left; rw [hk]; decide
  · left
    rw [toLower_eq_self (by have := isPySpace_le hk; omega)]
    simp [isSepChar, hk]
  · left; rw [hk]; decide

theorem mem_normalize_ranges (s : PyStr) :
    ∀ c ∈ normalize_name s,
      c = '_' ∨ (97 ≤ c.toNat ∧ c.toNat ≤ 122) ∨ (48 ≤ c.toNat ∧ c.toNat ≤ 57) := by
  intro c hc
  unfold normalize_name at hc
  rcases mem_collapseSeps _ c hc with h | ⟨hmem, hsep⟩
  · left; exact h
  · rcases mem_preNorm s c hmem with h | h
    · rw [h] at hsep
      exact absurd hsep (by simp)
    · right; exact h

theorem normalize_name_idem (s : PyStr) :
    normalize_name (normalize_name s) = normalize_name s := by
  have hm := mem_normalize_ranges s
  have hnoadj : noAdjSeps (normalize_name s) = true := by
    unfold normalize_name
    exact collapseSeps_noAdj _
  conv_lhs => rw [normalize_name]
  have h1 : asciiFold (normalize_name s) = normalize_name s := by
    unfold asciiFold
    apply List.filter_eq_self.mpr
    intro c hc
    rcases hm c hc with h | h | h
    · rw [h]; decide
    · simp only [decide_eq_true_eq]; omega
    · simp only [decide_eq_true_eq]; omega
  rw [h1]
  have h2 : (normalize_name s).filter keepChar = normalize_name s := by
    apply List.filter_eq_self.mpr
    intro c hc
    rcases hm c hc with h | h | h
    · rw [h]; decide
    · have ha : c.isAlphanum = true := isAlphanum_iff.mpr (Or.inr (Or.inl h))
      simp [keepChar, isWordChar, ha]
    · have ha : c.isAlphanum = true := isAlphanum_iff.mpr (Or.inr (Or.inr h))
      simp [keepChar, isWordChar, ha]
  rw [h2]
  have h3 : pyStrip (normalize_name s) = normalize_name s := by
    apply pyStrip_eq_self_of_all
    intro c hc
    rcases hm c hc with h | h | h
    · rw [h]; decide
    · exact isPySpace_eq_false (by omega)
    · exact isPySpace_eq_false (by omega)
  rw [h3]
  have h4 : pyLower (normalize_name s) = normalize_name s := by
    unfold pyLower
    apply map_eq_self_of_all
    intro c hc
    rcases hm c hc with h | h | h
    · rw [h]; decide
    · exact toLower_eq_self (by omega)
    · exact toLower_eq_self (by omega)
  rw [h4]
  apply collapseSeps_fixed
  · intro c hc hs
    rcases hm c hc with h | h | h
    · exact h
    · exact absurd hs (by simp [isSepChar_eq_false_of_alnum (Or.inl h)])
    · exact absurd hs (by simp [isSepChar_eq_false_of_alnum (Or.inr h)])
  · exact hnoadj

/-- Claim C7: `normalize_name` is idempotent; its output contains only
lowercase ASCII letters, digits and underscores; separator runs are
collapsed, so no two adjacent underscores (or other separators) remain;
and "My Projects!!" normalizes to "my_projects". -/
theorem C7_normalize_name_idempotent (s : PyStr) :
    normalize_name (normalize_name s) = normalize_name s ∧
    (∀ c ∈ normalize_name s,
       ('a' ≤ c ∧ c ≤ 'z') ∨ ('0' ≤ c ∧ c ≤ '9') ∨ c = '_') ∧
    noAdjSeps (normalize_name s) = true ∧
    normalize_name ("My Projects!!".toList) = "my_projects".toList := by
  refine ⟨normalize_name_idem s, ?_, ?_, by decide⟩
  · intro c hc
    rcases mem_normalize_ranges s c hc with h | h | h
    · right; right; exact h
    · left
      constructor
      · rw [char_le_iff]
        have ha : ('a' : Char).toNat = 97 := rfl
        omega
      · rw [char_le_iff]
        have hz : ('z' : Char).toNat = 122 := rfl
        omega
    · right; left
      constructor
      · rw [char_le_iff]
        have h0 : ('0' : Char).toNat = 48 := rfl
        omega
      · rw [char_le_iff]
        have h9 : ('9' : Char).toNat = 57 := rfl
        omega
  · unfold normalize_name
    exact collapseSeps_noAdj _

/-- Claim C7 witness: idempotence and the alphabet property evaluated on
the concrete name "My Projects!!". -/
theorem C7_normalize_name_idempotent_witness :
    normalize_name (normalize_name ("My Projects!!".toList)) =
      normalize_name ("My Projects!!".toList) ∧
    (('a' ≤ 'm' ∧ 'm' ≤ 'z') ∨ ('0' ≤ 'm' ∧ 'm' ≤ '9') ∨ 'm' = '_') := by
  refine ⟨(C7_normalize_name_idempotent ("My Projects!!".toList)).1, ?_⟩
  exact (C7_normalize_name_idempotent ("My Projects!!".toList)).2.1 'm' (by decide)

end ManualNas
